import Mathlib

/-
Verification of the options-resolution system described by the
`2-Customization` getting-started notebook.  The repository ships only the
notebook (narrative documentation plus example cells); the options engine it
describes — the Option Store, the Resolver and the backend-adapter boundary —
has no implementation under the sources.  Every definition below is therefore
modelled from the specification text (sections 3, 4, 6 and 7 of the design
document) and from the behaviour the notebook cells demonstrate.
-/

namespace Holo

/-- Modelled from the spec: an option value is tagged as either a plot option
(consumed by the layout logic) or a style option (passed to the backend).
The implementation of the tagging is missing from the sources. -/
inductive Tag where
  | plot : Tag
  | style : Tag
deriving DecidableEq

/-- Modelled from the spec: one entry of an OptionSpec, an option name bound
to a value together with its plot/style tag.  The real option classes are
missing from the sources. -/
structure Entry where
  name : String
  value : String
  tag : Tag
deriving DecidableEq

/-- Modelled from the spec: an OptionSpec is a mapping from option name to
tagged value; represented as a list of entries. -/
abbrev OptionSpec := List Entry

/-- The option names bound by a spec. -/
def names (s : OptionSpec) : List String :=
  s.map Entry.name

/-- Modelled from the spec: the applicability key of an OptionSpec — element
type, optional group, optional label and backend (`none` meaning "any").
The real scope keys are missing from the sources. -/
structure Scope where
  etype : String
  group : Option String
  label : Option String
  backend : Option String
deriving DecidableEq

/-- Modelled from the spec: a registered backend exposes its name and its
recognized option vocabulary.  The real backend registry is missing from the
sources. -/
structure Backend where
  name : String
  vocab : List String
deriving DecidableEq

/-- Modelled from the spec: the Option Store — the registered backends and
the option bundles keyed by scope.  The real store is missing from the
sources. -/
structure Store where
  backends : List Backend
  entries : List (Scope × OptionSpec)
deriving DecidableEq

/-- Modelled from the spec: the identity of an element instance consulted by
the Resolver — its type, optional group and optional label. -/
structure Instance where
  etype : String
  group : Option String
  label : Option String
deriving DecidableEq

/-- First entry of a spec carrying the given option name, if any. -/
def lookupName : OptionSpec → String → Option Entry
  | [], _ => none
  | e :: rest, n => if e.name = n then some e else lookupName rest n

/-- Whether a spec binds the given option name. -/
def hasName (s : OptionSpec) (n : String) : Bool :=
  (lookupName s n).isSome

/-- Modelled from the spec: merging a new bundle over an old one — the new
call overrides conflicting keys only, every other key keeps its old value. -/
def mergeSpec (old new : OptionSpec) : OptionSpec :=
  old.filter (fun e => !hasName new e.name) ++ new

/-- The bundle registered under a scope, if any. -/
def lookupScope : List (Scope × OptionSpec) → Scope → Option OptionSpec
  | [], _ => none
  | p :: rest, sc => if p.1 = sc then some p.2 else lookupScope rest sc

/-- The bundle held by the store for a scope (empty when none). -/
def specFor (st : Store) (sc : Scope) : OptionSpec :=
  (lookupScope st.entries sc).getD []

/-- Insert a bundle for a scope, merging over an already-present bundle. -/
def insertSpec : List (Scope × OptionSpec) → Scope → OptionSpec → List (Scope × OptionSpec)
  | [], sc, spec => [(sc, spec)]
  | p :: rest, sc, spec =>
    if p.1 = sc then (sc, mergeSpec p.2 spec) :: rest
    else p :: insertSpec rest sc spec

/-- Whether an option name is recognized by at least one registered backend
vocabulary. -/
def recognizedBySome (bs : List Backend) (n : String) : Bool :=
  bs.any (fun b => b.vocab.contains n)

/-- The registered backend of a given name, if any. -/
def findBackend : List Backend → String → Option Backend
  | [], _ => none
  | b :: rest, n => if b.name = n then some b else findBackend rest n

/-- The recognized option vocabulary of the active backend. -/
def activeVocab (st : Store) (b : String) : List String :=
  ((findBackend st.backends b).map Backend.vocab).getD []

/-- Modelled from the spec: container element types (such as `Layout`) are
processed by the library itself; nothing is passed to the backend for them. -/
def isContainer (t : String) : Bool :=
  t == "Layout"

/-- Modelled from the spec: containers accept only plot options, so
style-tagged entries registered for a container scope are treated as no-ops
and dropped. -/
def sanitize (sc : Scope) (spec : OptionSpec) : OptionSpec :=
  if isContainer sc.etype then spec.filter (fun e => e.tag == Tag.plot) else spec

/-- Modelled from the spec: `register(scope, spec)` validates every option
name against the union of the backend vocabularies — an option invalid for
all registered backends raises UnrecognizedOption — and otherwise inserts or
replaces the bundle for the scope, overriding conflicting keys only. -/
def register (st : Store) (sc : Scope) (spec : OptionSpec) : Except String Store :=
  if spec.all (fun e => recognizedBySome st.backends e.name) then
    .ok { st with entries := insertSpec st.entries sc (sanitize sc spec) }
  else .error "UnrecognizedOption"

/-- Run a sequence of registrations, stopping at the first failure. -/
def registerAll (st : Store) : List (Scope × OptionSpec) → Except String Store
  | [] => .ok st
  | (sc, spec) :: rest =>
    match register st sc spec with
    | .ok st2 => registerAll st2 rest
    | .error e => .error e

/-- Modelled from the spec: the scope keys that could apply to an instance
for one backend slot, least specific first: type alone, then type/group,
then type/group/label. -/
def scopeVariants (inst : Instance) (bk : Option String) : List Scope :=
  ⟨inst.etype, none, none, bk⟩ ::
    (match inst.group with
     | some g =>
       ⟨inst.etype, some g, none, bk⟩ ::
         (match inst.label with
          | some l => [⟨inst.etype, some g, some l, bk⟩]
          | none => [])
     | none => [])

/-- Modelled from the spec: `lookup` returns the scopes that could apply in
ascending specificity order — (type/any), (type/group), (type/group/label),
then each backend variant. -/
def matchingScopes (inst : Instance) (b : String) : List Scope :=
  scopeVariants inst none ++ scopeVariants inst (some b)

/-- Merge a list of bundles left to right: a later (more specific) bundle
overrides an earlier one on conflicting names. -/
def mergeAll (init : OptionSpec) : List OptionSpec → OptionSpec
  | [] => init
  | s :: rest => mergeAll (mergeSpec init s) rest

/-- Modelled from the spec: the effective bundle for an instance under a
backend — the matching scopes gathered in specificity order, the value from
the most specific scope overriding earlier ones. -/
def effective (st : Store) (inst : Instance) (b : String) : OptionSpec :=
  mergeAll [] ((matchingScopes inst b).map (specFor st))

/-- The effective entries whose names the active backend recognizes; the
rest are dropped silently. -/
def effectiveRecognized (st : Store) (inst : Instance) (b : String) : OptionSpec :=
  (effective st inst b).filter (fun e => (activeVocab st b).contains e.name)

/-- Modelled from the spec: `resolve(instance, backend)` — if some effective
option is unknown to every registered backend resolution fails with an
unknown-option condition; otherwise options unrecognized by the active
backend are dropped silently and the rest are split into plot options and
style options. -/
def resolve (st : Store) (inst : Instance) (b : String) :
    Except String (OptionSpec × OptionSpec) :=
  if (effective st inst b).all (fun e => recognizedBySome st.backends e.name) then
    .ok ((effectiveRecognized st inst b).filter (fun e => e.tag == Tag.plot),
         (effectiveRecognized st inst b).filter (fun e => e.tag == Tag.style))
  else .error "unknown option"

/-- Modelled from the spec: an element — a data-bearing object with a type
tag, optional group, optional label, dimension labels and data; display
settings are attached only by reference through the Option Store.  The real
element classes are missing from the sources. -/
structure Element where
  etype : String
  group : Option String
  label : Option String
  dimLabels : List (String × String)
  data : List Int
deriving DecidableEq

/-- The Option Store identity of an element. -/
def instOf (e : Element) : Instance :=
  ⟨e.etype, e.group, e.label⟩

/-- Modelled from the notebook: `select` keeps only the data rows inside the
given range, returning a derived element. -/
def select (e : Element) (lo hi : Int) : Element :=
  { e with data := e.data.filter (fun x => decide (lo ≤ x) && decide (x ≤ hi)) }

/-- Modelled from the notebook: `redim.label` sets the descriptive label of a
dimension, returning a derived element. -/
def redimLabel (e : Element) (d lbl : String) : Element :=
  { e with dimLabels := (d, lbl) :: e.dimLabels.filter (fun p => p.1 != d) }

/-- Modelled from the spec: the operations a session performs against the
Option Store — registrations and resolutions (renders). -/
inductive Op where
  | reg : Scope → OptionSpec → Op
  | res : Instance → String → Op

/-- Whether an operation is a resolution. -/
def Op.isRes : Op → Bool
  | .reg _ _ => false
  | .res _ _ => true

/-- Modelled from the spec: a session — the Option Store plus the outputs
already rendered. -/
structure Session where
  store : Store
  rendered : List (Except String (OptionSpec × OptionSpec))

/-- One session step: a registration mutates only the store (a failed one
leaves it unchanged); a resolution appends its output to the rendered log. -/
def stepOp (s : Session) : Op → Session
  | .reg sc spec =>
    { s with store :=
        match register s.store sc spec with
        | .ok st2 => st2
        | .error _ => s.store }
  | .res inst b => { s with rendered := s.rendered ++ [resolve s.store inst b] }

/-- Run a sequence of session operations. -/
def runOps (s : Session) : List Op → Session
  | [] => s
  | op :: rest => runOps (stepOp s op) rest

/-- Modelled from the notebook: the plotting-extension state — the loaded
backends and the default active backend. -/
structure UI where
  loaded : List String
  active : Option String
deriving DecidableEq

/-- Modelled from the notebook: `hv.extension(b1, b2, ...)` loads the listed
backends and makes the first one the default. -/
def extension (_u : UI) (bs : List String) : UI :=
  { loaded := bs, active := bs.head? }

/-- Modelled from the notebook: the backend used for one render — the
`backend` keyword of the output magic when it names a loaded backend,
otherwise the default. -/
def outputBackend (u : UI) (override : Option String) : Option String :=
  match override with
  | some b => if u.loaded.contains b then some b else u.active
  | none => u.active

/-- Modelled from the notebook: rendering one plot resolves under the chosen
backend and leaves the extension state untouched. -/
def renderWith (u : UI) (st : Store) (inst : Instance) (override : Option String) :
    UI × Option (Except String (OptionSpec × OptionSpec)) :=
  (u, (outputBackend u override).map (fun b => resolve st inst b))

/-- Well-formedness: every registered bundle is a genuine mapping — it binds
each option name at most once. -/
def Store.WF (st : Store) : Prop :=
  ∀ p ∈ st.entries, (names p.2).Nodup

/-- Every option name registered anywhere in the store is recognized by at
least one registered backend vocabulary. -/
def AllRecognized (st : Store) : Prop :=
  ∀ p ∈ st.entries, ∀ e ∈ p.2, recognizedBySome st.backends e.name = true

/-- Every bundle registered under a container scope holds plot options
only. -/
def ContainerInv (st : Store) : Prop :=
  ∀ p ∈ st.entries, isContainer p.1.etype = true → ∀ e ∈ p.2, e.tag = Tag.plot

/-- Sample store: a type-only Curve bundle and a fully specific Curve bundle
registered for the bokeh backend. -/
def store1 : Store :=
  ⟨[⟨"bokeh", ["color", "width"]⟩],
   [(⟨"Curve", none, none, none⟩, [⟨"color", "blue", Tag.style⟩]),
    (⟨"Curve", some "Firing Rate", some "Trial 1", some "bokeh"⟩,
     [⟨"color", "red", Tag.style⟩])]⟩

/-- Sample store with two backends whose vocabularies differ on the
line-width option name. -/
def store2 : Store :=
  ⟨[⟨"bokeh", ["color", "line_width"]⟩, ⟨"matplotlib", ["color", "linewidth"]⟩],
   [(⟨"Curve", none, none, none⟩,
     [⟨"line_width", "1.5", Tag.style⟩, ⟨"color", "red", Tag.style⟩])]⟩

/-- Sample store holding only a backend registry, with no entries yet. -/
def store3init : Store := ⟨[⟨"bokeh", ["color"]⟩], []⟩

/-- Sample registration sequence for `store3init`. -/
def regs3 : List (Scope × OptionSpec) :=
  [(⟨"Curve", none, none, none⟩, [⟨"color", "blue", Tag.style⟩])]

/-- The store produced by running `regs3` on `store3init`. -/
def store3 : Store :=
  ⟨[⟨"bokeh", ["color"]⟩],
   [(⟨"Curve", none, none, none⟩, [⟨"color", "blue", Tag.style⟩])]⟩

/-- Sample session whose store styles the Spikes element. -/
def session4 : Session :=
  ⟨⟨[⟨"bokeh", ["color"]⟩],
    [(⟨"Spikes", none, none, none⟩, [⟨"color", "grey", Tag.style⟩])]⟩, []⟩

/-- Sample store whose Curve scope already has entries. -/
def store5 : Store :=
  ⟨[⟨"bokeh", ["color", "width"]⟩],
   [(⟨"Curve", none, none, none⟩,
     [⟨"color", "red", Tag.style⟩, ⟨"width", "600", Tag.plot⟩])]⟩

/-- Sample store holding one plot option and one style option for Curve. -/
def store6 : Store :=
  ⟨[⟨"bokeh", ["color", "width"]⟩],
   [(⟨"Curve", none, none, none⟩,
     [⟨"width", "600", Tag.plot⟩, ⟨"color", "red", Tag.style⟩])]⟩

/-- Sample session used to exercise persistence across operations. -/
def session7 : Session :=
  ⟨⟨[⟨"bokeh", ["color", "width"]⟩],
    [(⟨"Spikes", none, none, none⟩, [⟨"color", "grey", Tag.style⟩])]⟩, []⟩

/-- Sample operation sequence: one registration then one render. -/
def ops7 : List Op :=
  [Op.reg ⟨"Spikes", none, none, none⟩ [⟨"width", "600", Tag.plot⟩],
   Op.res ⟨"Spikes", none, none⟩ "bokeh"]

/-- Sample store used to exercise styling survival across transforms. -/
def store8 : Store :=
  ⟨[⟨"bokeh", ["color"]⟩],
   [(⟨"Spikes", some "Spike Train", none, some "bokeh"⟩,
     [⟨"color", "grey", Tag.style⟩])]⟩

/-- Sample element carrying data rows, a dimension label table and an Option
Store identity. -/
def spikes8 : Element :=
  ⟨"Spikes", some "Spike Train", none, [("milliseconds", "milliseconds")],
   [1500, 2500, 3500, 4500]⟩

/-- Sample store whose Layout scope was given a plot option. -/
def store10 : Store :=
  ⟨[⟨"bokeh", ["width", "vspace"]⟩],
   [(⟨"Layout", none, none, none⟩, [⟨"vspace", "0.1", Tag.plot⟩])]⟩

theorem lookupName_append (a b : OptionSpec) (n : String) :
    lookupName (a ++ b) n =
      match lookupName a n with
      | some e => some e
      | none => lookupName b n := by
  induction a with
  | nil => simp [lookupName]
  | cons e rest ih =>
    by_cases h : e.name = n
    · simp [lookupName, h]
    · simp [lookupName, h, ih]

theorem lookupName_mem {s : OptionSpec} {n : String} {e : Entry}
    (h : lookupName s n = some e) : e ∈ s ∧ e.name = n := by
  induction s with
  | nil => simp [lookupName] at h
  | cons x rest ih =>
    by_cases hx : x.name = n
    · rw [lookupName, if_pos hx] at h
      cases h
      exact ⟨List.mem_cons_self _ _, hx⟩
    · rw [lookupName, if_neg hx] at h
      rcases ih h with ⟨h1, h2⟩
      exact ⟨List.mem_cons_of_mem x h1, h2⟩

theorem hasName_iff {s : OptionSpec} {n : String} :
    hasName s n = true ↔ ∃ e ∈ s, e.name = n := by
  unfold hasName
  constructor
  · intro h
    rcases Option.isSome_iff_exists.mp h with ⟨e, he⟩
    rcases lookupName_mem he with ⟨h1, h2⟩
    exact ⟨e, h1, h2⟩
  · rintro ⟨e, he, hn⟩
    induction s with
    | nil => cases he
    | cons x rest ih =>
      by_cases hx : x.name = n
      · simp [lookupName, hx]
      · rcases List.mem_cons.mp he with rfl | hmem
        · exact absurd hn hx
        · rw [lookupName, if_neg hx]
          exact ih hmem

theorem hasName_of_mem {s : OptionSpec} {e : Entry} (h : e ∈ s) :
    hasName s e.name = true :=
  hasName_iff.mpr ⟨e, h, rfl⟩

theorem lookupName_filter_none {s : OptionSpec} {q : Entry → Bool} {n : String}
    (h : ∀ e ∈ s, e.name = n → q e = false) :
    lookupName (s.filter q) n = none := by
  induction s with
  | nil => simp [lookupName]
  | cons x rest ih =>
    have ih2 := ih (fun e he hn => h e (List.mem_cons_of_mem x he) hn)
    by_cases hq : q x = true
    · rw [List.filter_cons_of_pos hq, lookupName]
      have hx : ¬ x.name = n := fun hn => by
        rw [h x (List.mem_cons_self x rest) hn] at hq
        cases hq
      rw [if_neg hx]
      exact ih2
    · rw [List.filter_cons_of_neg hq]
      exact ih2

theorem lookupName_filter_all {s : OptionSpec} {q : Entry → Bool} {n : String}
    (h : ∀ e ∈ s, e.name = n → q e = true) :
    lookupName (s.filter q) n = lookupName s n := by
  induction s with
  | nil => simp
  | cons x rest ih =>
    have ih2 := ih (fun e he hn => h e (List.mem_cons_of_mem x he) hn)
    by_cases hx : x.name = n
    · rw [List.filter_cons_of_pos (h x (List.mem_cons_self x rest) hx)]
      rw [lookupName, lookupName, if_pos hx, if_pos hx]
    · by_cases hq : q x = true
      · rw [List.filter_cons_of_pos hq, lookupName, if_neg hx, lookupName, if_neg hx]
        exact ih2
      · rw [List.filter_cons_of_neg hq, lookupName, if_neg hx]
        exact ih2

theorem lookupName_mergeSpec (a b : OptionSpec) (n : String) :
    lookupName (mergeSpec a b) n =
      if hasName b n = true then lookupName b n else lookupName a n := by
  unfold mergeSpec
  rw [lookupName_append]
  by_cases hb : hasName b n = true
  · have hnone : lookupName (a.filter (fun e => !hasName b e.name)) n = none :=
      lookupName_filter_none (fun e _ hn => by rw [hn, hb]; rfl)
    rw [hnone, if_pos hb]
  · have hall : lookupName (a.filter (fun e => !hasName b e.name)) n = lookupName a n :=
      lookupName_filter_all (fun e _ hn => by
        rw [hn, Bool.eq_false_iff.mpr hb]; rfl)
    have hbnone : lookupName b n = none := by
      rcases hres : lookupName b n with _ | e
      · rfl
      · exact absurd (by unfold hasName; rw [hres]; rfl) hb
    rw [hall, if_neg hb]
    cases h : lookupName a n
    · exact hbnone
    · rfl

theorem hasName_mergeSpec (a b : OptionSpec) (n : String) :
    hasName (mergeSpec a b) n = (hasName a n || hasName b n) := by
  unfold hasName
  rw [show lookupName (mergeSpec a b) n =
        if (lookupName b n).isSome = true then lookupName b n else lookupName a n from
      lookupName_mergeSpec a b n]
  by_cases hb : (lookupName b n).isSome = true
  · rw [if_pos hb, hb, Bool.or_true]
  · rw [if_neg hb, Bool.eq_false_iff.mpr hb, Bool.or_false]

theorem mem_mergeSpec {a b : OptionSpec} {e : Entry} (h : e ∈ mergeSpec a b) :
    e ∈ a ∨ e ∈ b := by
  unfold mergeSpec at h
  rcases List.mem_append.mp h with h1 | h2
  · exact Or.inl (List.mem_of_mem_filter h1)
  · exact Or.inr h2

theorem names_mergeSpec_nodup {a b : OptionSpec}
    (ha : (names a).Nodup) (hb : (names b).Nodup) :
    (names (mergeSpec a b)).Nodup := by
  unfold mergeSpec names
  rw [List.map_append]
  apply List.Nodup.append
  · exact ((List.filter_sublist a).map Entry.name).nodup ha
  · exact hb
  · intro n hn1 hn2
    rcases List.mem_map.mp hn1 with ⟨e1, he1, rfl⟩
    rcases List.mem_map.mp hn2 with ⟨e2, he2, hne⟩
    have hq := List.of_mem_filter he1
    have : hasName b e1.name = true := by
      rw [← hne]
      exact hasName_of_mem he2
    rw [this] at hq
    cases hq

theorem lookupScope_mem {l : List (Scope × OptionSpec)} {sc : Scope} {s : OptionSpec}
    (h : lookupScope l sc = some s) : (sc, s) ∈ l := by
  induction l with
  | nil => simp [lookupScope] at h
  | cons p rest ih =>
    obtain ⟨psc, pspec⟩ := p
    by_cases hp : psc = sc
    · rw [lookupScope, if_pos hp] at h
      cases h
      subst hp
      exact List.mem_cons_self _ _
    · rw [lookupScope, if_neg hp] at h
      exact List.mem_cons_of_mem _ (ih h)

theorem specFor_sub {st : Store} {sc : Scope} {e : Entry}
    (h : e ∈ specFor st sc) : ∃ p ∈ st.entries, p.1 = sc ∧ e ∈ p.2 := by
  unfold specFor at h
  cases hl : lookupScope st.entries sc with
  | none => rw [hl] at h; cases h
  | some s =>
    rw [hl] at h
    exact ⟨(sc, s), lookupScope_mem hl, rfl, h⟩

theorem lookupScope_insertSpec (l : List (Scope × OptionSpec)) (sc : Scope)
    (spec : OptionSpec) (x : Scope) :
    lookupScope (insertSpec l sc spec) x =
      if x = sc then some (mergeSpec ((lookupScope l sc).getD []) spec)
      else lookupScope l x := by
  induction l with
  | nil =>
    by_cases hx : x = sc
    · subst hx
      simp [insertSpec, lookupScope, mergeSpec]
    · have : ¬ sc = x := fun h => hx h.symm
      simp [insertSpec, lookupScope, hx, this]
  | cons p rest ih =>
    obtain ⟨psc, pspec⟩ := p
    by_cases hp : psc = sc
    · subst hp
      by_cases hx : x = psc
      · subst hx
        simp [insertSpec, lookupScope]
      · have hpx : ¬ psc = x := fun h => hx h.symm
        simp [insertSpec, lookupScope, hx, hpx]
    · by_cases hx : x = sc
      · subst hx
        have hpx : ¬ psc = x := hp
        simp [insertSpec, lookupScope, hp, hpx, ih]
      · by_cases hpx : psc = x
        · subst hpx
          simp [insertSpec, lookupScope, hp, hx]
        · simp [insertSpec, lookupScope, hp, hx, hpx, ih]

theorem register_guard {st : Store} {sc : Scope} {spec : OptionSpec} {st2 : Store}
    (h : register st sc spec = .ok st2) :
    spec.all (fun e => recognizedBySome st.backends e.name) = true := by
  unfold register at h
  split at h
  · assumption
  · cases h

theorem register_entries {st : Store} {sc : Scope} {spec : OptionSpec} {st2 : Store}
    (h : register st sc spec = .ok st2) :
    st2.entries = insertSpec st.entries sc (sanitize sc spec) := by
  unfold register at h
  split at h
  · cases h; rfl
  · cases h

theorem register_backends {st : Store} {sc : Scope} {spec : OptionSpec} {st2 : Store}
    (h : register st sc spec = .ok st2) : st2.backends = st.backends := by
  unfold register at h
  split at h
  · cases h; rfl
  · cases h

theorem specFor_register {st : Store} {sc : Scope} {spec : OptionSpec} {st2 : Store}
    (h : register st sc spec = .ok st2) (x : Scope) :
    specFor st2 x =
      if x = sc then mergeSpec (specFor st sc) (sanitize sc spec) else specFor st x := by
  unfold specFor
  rw [register_entries h, lookupScope_insertSpec]
  by_cases hx : x = sc
  · rw [if_pos hx, if_pos hx]
    rfl
  · rw [if_neg hx, if_neg hx]

theorem mem_sanitize {sc : Scope} {spec : OptionSpec} {e : Entry}
    (h : e ∈ sanitize sc spec) : e ∈ spec := by
  unfold sanitize at h
  split at h
  · exact List.mem_of_mem_filter h
  · exact h

theorem sanitize_container_plot {sc : Scope} {spec : OptionSpec} {e : Entry}
    (hc : isContainer sc.etype = true) (h : e ∈ sanitize sc spec) :
    e.tag = Tag.plot := by
  unfold sanitize at h
  rw [if_pos hc] at h
  have := List.of_mem_filter h
  exact eq_of_beq this

theorem hasName_sanitize_false {sc : Scope} {spec : OptionSpec} {n : String}
    (h : hasName spec n = false) : hasName (sanitize sc spec) n = false := by
  rcases hres : hasName (sanitize sc spec) n with _ | _
  · rfl
  · rcases hasName_iff.mp hres with ⟨e, he, hn⟩
    have := hasName_iff.mpr ⟨e, mem_sanitize he, hn⟩
    rw [this] at h
    cases h

theorem names_sanitize_nodup {sc : Scope} {spec : OptionSpec}
    (h : (names spec).Nodup) : (names (sanitize sc spec)).Nodup := by
  unfold sanitize
  split
  · exact ((List.filter_sublist spec).map Entry.name).nodup h
  · exact h

theorem mem_insertSpec_entry {Q : Scope → Entry → Prop}
    {l : List (Scope × OptionSpec)} {sc : Scope} {spec : OptionSpec}
    (hl : ∀ p ∈ l, ∀ e ∈ p.2, Q p.1 e)
    (hs : ∀ e ∈ spec, Q sc e) :
    ∀ p ∈ insertSpec l sc spec, ∀ e ∈ p.2, Q p.1 e := by
  induction l with
  | nil =>
    intro p hp e he
    rw [insertSpec] at hp
    rcases List.mem_cons.mp hp with rfl | hfalse
    · exact hs e he
    · cases hfalse
  | cons q rest ih =>
    intro p hp e he
    rw [insertSpec] at hp
    split at hp
    · next hq =>
      rcases List.mem_cons.mp hp with rfl | hmem
      · rcases mem_mergeSpec he with h1 | h2
        · have := hl q (List.mem_cons_self _ _) e h1
          rw [hq] at this
          exact this
        · exact hs e h2
      · exact hl p (List.mem_cons_of_mem _ hmem) e he
    · rcases List.mem_cons.mp hp with rfl | hmem
      · exact hl p (List.mem_cons_self _ _) e he
      · exact ih (fun r hr => hl r (List.mem_cons_of_mem _ hr)) p hmem e he

theorem insertSpec_nodup
    {l : List (Scope × OptionSpec)} {sc : Scope} {spec : OptionSpec}
    (hl : ∀ p ∈ l, (names p.2).Nodup) (hs : (names spec).Nodup) :
    ∀ p ∈ insertSpec l sc spec, (names p.2).Nodup := by
  induction l with
  | nil =>
    intro p hp
    rw [insertSpec] at hp
    rcases List.mem_cons.mp hp with rfl | hfalse
    · exact hs
    · cases hfalse
  | cons q rest ih =>
    intro p hp
    rw [insertSpec] at hp
    split at hp
    · rcases List.mem_cons.mp hp with rfl | hmem
      · exact names_mergeSpec_nodup (hl q (List.mem_cons_self _ _)) hs
      · exact hl p (List.mem_cons_of_mem _ hmem)
    · rcases List.mem_cons.mp hp with rfl | hmem
      · exact hl p (List.mem_cons_self _ _)
      · exact ih (fun r hr => hl r (List.mem_cons_of_mem _ hr)) p hmem

theorem register_WF {st st2 : Store} {sc : Scope} {spec : OptionSpec}
    (hwf : st.WF) (hspec : (names spec).Nodup)
    (h : register st sc spec = .ok st2) : st2.WF := by
  intro p hp
  rw [register_entries h] at hp
  exact insertSpec_nodup hwf (names_sanitize_nodup hspec) p hp

theorem register_AllRecognized {st st2 : Store} {sc : Scope} {spec : OptionSpec}
    (h : AllRecognized st) (hr : register st sc spec = .ok st2) :
    AllRecognized st2 := by
  intro p hp e hep
  rw [register_backends hr]
  rw [register_entries hr] at hp
  refine mem_insertSpec_entry
    (Q := fun _ e => recognizedBySome st.backends e.name = true) h ?_ p hp e hep
  intro e2 he2
  exact List.all_eq_true.mp (register_guard hr) e2 (mem_sanitize he2)

theorem registerAll_AllRecognized {st0 st : Store} {rs : List (Scope × OptionSpec)}
    (h0 : AllRecognized st0) (hrun : registerAll st0 rs = .ok st) :
    AllRecognized st := by
  induction rs generalizing st0 with
  | nil =>
    rw [registerAll] at hrun
    cases hrun
    exact h0
  | cons r rest ih =>
    obtain ⟨sc, spec⟩ := r
    rw [registerAll] at hrun
    cases hr : register st0 sc spec with
    | error e => rw [hr] at hrun; cases hrun
    | ok st1 =>
      rw [hr] at hrun
      exact ih (register_AllRecognized h0 hr) hrun

theorem register_ContainerInv {st st2 : Store} {sc : Scope} {spec : OptionSpec}
    (h : ContainerInv st) (hr : register st sc spec = .ok st2) :
    ContainerInv st2 := by
  intro p hp hc e hep
  rw [register_entries hr] at hp
  refine mem_insertSpec_entry
    (Q := fun s e => isContainer s.etype = true → e.tag = Tag.plot)
    (fun q hq e2 he2 hc2 => h q hq hc2 e2 he2) ?_ p hp e hep hc
  intro e2 he2 hc2
  exact sanitize_container_plot hc2 he2

theorem mergeAll_append (init : OptionSpec) (a b : List OptionSpec) :
    mergeAll init (a ++ b) = mergeAll (mergeAll init a) b := by
  induction a generalizing init with
  | nil => rfl
  | cons s rest ih =>
    rw [List.cons_append, mergeAll, mergeAll, ih]

theorem lookupName_mergeAll_not {init : OptionSpec} {l : List OptionSpec} {n : String}
    (h : ∀ s ∈ l, hasName s n = false) :
    lookupName (mergeAll init l) n = lookupName init n := by
  induction l generalizing init with
  | nil => rfl
  | cons s rest ih =>
    rw [mergeAll, ih (fun t ht => h t (List.mem_cons_of_mem _ ht))]
    rw [lookupName_mergeSpec]
    rw [h s (List.mem_cons_self _ _)]
    rfl

theorem mem_mergeAll {init : OptionSpec} {l : List OptionSpec} {e : Entry}
    (he : e ∈ mergeAll init l) : e ∈ init ∨ ∃ s ∈ l, e ∈ s := by
  induction l generalizing init with
  | nil => exact Or.inl he
  | cons s rest ih =>
    rw [mergeAll] at he
    rcases ih he with h1 | ⟨t, ht, het⟩
    · rcases mem_mergeSpec h1 with ha | hb
      · exact Or.inl ha
      · exact Or.inr ⟨s, List.mem_cons_self _ _, hb⟩
    · exact Or.inr ⟨t, List.mem_cons_of_mem _ ht, het⟩

theorem names_mergeAll_nodup {init : OptionSpec} {l : List OptionSpec}
    (hi : (names init).Nodup) (hl : ∀ s ∈ l, (names s).Nodup) :
    (names (mergeAll init l)).Nodup := by
  induction l generalizing init with
  | nil => exact hi
  | cons s rest ih =>
    rw [mergeAll]
    exact ih (names_mergeSpec_nodup hi (hl s (List.mem_cons_self _ _)))
      (fun t ht => hl t (List.mem_cons_of_mem _ ht))

theorem matchingScopes_etype (inst : Instance) (b : String) :
    ∀ sc ∈ matchingScopes inst b, sc.etype = inst.etype := by
  intro sc hsc
  unfold matchingScopes scopeVariants at hsc
  cases hg : inst.group with
  | none =>
    rw [hg] at hsc
    simp at hsc
    rcases hsc with rfl | rfl <;> rfl
  | some g =>
    cases hl : inst.label with
    | none =>
      rw [hg, hl] at hsc
      simp at hsc
      rcases hsc with rfl | rfl | rfl | rfl <;> rfl
    | some lb =>
      rw [hg, hl] at hsc
      simp at hsc
      rcases hsc with rfl | rfl | rfl | rfl | rfl | rfl <;> rfl

theorem mem_effective {st : Store} {inst : Instance} {b : String} {e : Entry}
    (he : e ∈ effective st inst b) :
    ∃ sc ∈ matchingScopes inst b, e ∈ specFor st sc := by
  unfold effective at he
  rcases mem_mergeAll he with h1 | ⟨s, hs, hes⟩
  · cases h1
  · rcases List.mem_map.mp hs with ⟨sc, hsc, rfl⟩
    exact ⟨sc, hsc, hes⟩

theorem effective_recognized {st : Store} {inst : Instance} {b : String}
    (h : AllRecognized st) :
    ∀ e ∈ effective st inst b, recognizedBySome st.backends e.name = true := by
  intro e he
  rcases mem_effective he with ⟨sc, _, hes⟩
  rcases specFor_sub hes with ⟨p, hp, _, hep⟩
  exact h p hp e hep

theorem resolve_ok_of_recognized {st : Store} (inst : Instance) (b : String)
    (h : AllRecognized st) :
    resolve st inst b =
      .ok ((effectiveRecognized st inst b).filter (fun e => e.tag == Tag.plot),
           (effectiveRecognized st inst b).filter (fun e => e.tag == Tag.style)) := by
  unfold resolve
  rw [if_pos (List.all_eq_true.mpr (effective_recognized h))]

theorem specFor_nodup {st : Store} (hwf : st.WF) (sc : Scope) :
    (names (specFor st sc)).Nodup := by
  unfold specFor
  cases h : lookupScope st.entries sc with
  | none => simp [names]
  | some t => exact hwf _ (lookupScope_mem h)

theorem effective_nodup {st : Store} (inst : Instance) (b : String) (hwf : st.WF) :
    (names (effective st inst b)).Nodup := by
  unfold effective
  apply names_mergeAll_nodup
  · simp [names]
  · intro s hs
    rcases List.mem_map.mp hs with ⟨sc, _, rfl⟩
    exact specFor_nodup hwf sc

theorem resolve_congr {st1 st2 : Store} (hb : st1.backends = st2.backends)
    (hs : ∀ sc, specFor st1 sc = specFor st2 sc) (inst : Instance) (b : String) :
    resolve st1 inst b = resolve st2 inst b := by
  have hsf : specFor st1 = specFor st2 := funext hs
  unfold resolve effectiveRecognized effective activeVocab
  rw [hsf, hb]

theorem runOps_store_res {s : Session} {ops : List Op}
    (h : ops.all Op.isRes = true) : (runOps s ops).store = s.store := by
  induction ops generalizing s with
  | nil => rfl
  | cons op rest ih =>
    rw [List.all_cons, Bool.and_eq_true] at h
    cases op with
    | reg sc spec => cases h.1
    | res inst b =>
      rw [runOps, ih h.2]
      rfl

theorem runOps_rendered (s : Session) (ops : List Op) :
    ∃ tail, (runOps s ops).rendered = s.rendered ++ tail := by
  induction ops generalizing s with
  | nil => exact ⟨[], (List.append_nil _).symm⟩
  | cons op rest ih =>
    rcases ih (stepOp s op) with ⟨tail, ht⟩
    cases op with
    | reg sc spec =>
      refine ⟨tail, ?_⟩
      rw [runOps, ht]
      rfl
    | res inst b =>
      refine ⟨resolve s.store inst b :: tail, ?_⟩
      rw [runOps, ht]
      show (s.rendered ++ [resolve s.store inst b]) ++ tail = _
      rw [List.append_assoc]
      rfl

theorem stepOp_hasName {s : Session} (op : Op) {sc : Scope} {n : String}
    (h : hasName (specFor s.store sc) n = true) :
    hasName (specFor (stepOp s op).store sc) n = true := by
  cases op with
  | res inst b => exact h
  | reg sc2 spec =>
    show hasName
      (specFor
        (match register s.store sc2 spec with
         | .ok st2 => st2
         | .error _ => s.store) sc) n = true
    cases hr : register s.store sc2 spec with
    | error e => exact h
    | ok st2 =>
      rw [specFor_register hr sc]
      by_cases hx : sc = sc2
      · rw [if_pos hx, hasName_mergeSpec]
        subst hx
        rw [h]
        rfl
      · rw [if_neg hx]
        exact h

theorem runOps_hasName {s : Session} (ops : List Op) {sc : Scope} {n : String}
    (h : hasName (specFor s.store sc) n = true) :
    hasName (specFor (runOps s ops).store sc) n = true := by
  induction ops generalizing s with
  | nil => exact h
  | cons op rest ih =>
    rw [runOps]
    exact ih (stepOp_hasName op h)

/-- Claim C1: for every element instance and backend the effective bundle
binds each option name at most once; the Option Store lookup presents the
matching scopes in ascending specificity order — (type/any), (type/group),
(type/group/label), then each backend variant; for each option name the
value registered under the most specific matching scope that binds it wins
over every less specific scope; and registrations to two distinct scopes
give the same resolution in either order. -/
theorem C1_most_specific_scope_wins
    (st : Store) (t g lb b n : String) (hwf : st.WF) :
    (names (effective st ⟨t, some g, some lb⟩ b)).Nodup ∧
    matchingScopes ⟨t, some g, some lb⟩ b =
      [⟨t, none, none, none⟩, ⟨t, some g, none, none⟩, ⟨t, some g, some lb, none⟩,
       ⟨t, none, none, some b⟩, ⟨t, some g, none, some b⟩,
       ⟨t, some g, some lb, some b⟩] ∧
    (∀ l1 sc l2, matchingScopes ⟨t, some g, some lb⟩ b = l1 ++ sc :: l2 →
      hasName (specFor st sc) n = true →
      (∀ sc2 ∈ l2, hasName (specFor st sc2) n = false) →
      lookupName (effective st ⟨t, some g, some lb⟩ b) n =
        lookupName (specFor st sc) n) ∧
    (∀ sc1 sc2 s1 s2 st12 st21, sc1 ≠ sc2 →
      (register st sc1 s1).bind (fun x => register x sc2 s2) = .ok st12 →
      (register st sc2 s2).bind (fun x => register x sc1 s1) = .ok st21 →
      ∀ inst bk, resolve st12 inst bk = resolve st21 inst bk) := by
  refine ⟨effective_nodup _ _ hwf, rfl, ?_, ?_⟩
  · intro l1 sc l2 hlist hhas hnone
    have heff : effective st ⟨t, some g, some lb⟩ b =
        mergeAll (mergeSpec (mergeAll [] (l1.map (specFor st))) (specFor st sc))
          (l2.map (specFor st)) := by
      unfold effective
      rw [hlist, List.map_append, List.map_cons, mergeAll_append, mergeAll]
    rw [heff]
    rw [lookupName_mergeAll_not (fun s hs => by
      rcases List.mem_map.mp hs with ⟨sc2, hsc2, rfl⟩
      exact hnone sc2 hsc2)]
    rw [lookupName_mergeSpec, if_pos hhas]
  · intro sc1 sc2 s1 s2 st12 st21 hne h12 h21
    have hne2 : sc2 ≠ sc1 := fun h => hne h.symm
    cases hr1 : register st sc1 s1 with
    | error e => rw [hr1] at h12; exact Except.noConfusion h12
    | ok sta =>
      rw [hr1] at h12
      replace h12 : register sta sc2 s2 = .ok st12 := h12
      cases hr2 : register st sc2 s2 with
      | error e => rw [hr2] at h21; exact Except.noConfusion h21
      | ok stb =>
        rw [hr2] at h21
        replace h21 : register stb sc1 s1 = .ok st21 := h21
        have hb : st12.backends = st21.backends := by
          rw [register_backends h12, register_backends hr1,
              register_backends h21, register_backends hr2]
        refine resolve_congr hb ?_
        intro x
        simp only [specFor_register h12, specFor_register hr1,
          specFor_register h21, specFor_register hr2]
        by_cases hx2 : x = sc2 <;> by_cases hx1 : x = sc1
        · exact absurd (hx1.symm.trans hx2) hne
        · simp [hx2, hx1, hne2]
        · simp [hx2, hx1, hne]
        · simp [hx2, hx1]

/-- Claim C1 witness: in `store1` the fully specific scope binds `color` to
red, and resolution for a matching Curve instance under bokeh takes its
value from that scope, not from the type-only scope. -/
theorem C1_witness :
    Store.WF store1 ∧
    lookupName (effective store1 ⟨"Curve", some "Firing Rate", some "Trial 1"⟩ "bokeh")
        "color" =
      lookupName
        (specFor store1 ⟨"Curve", some "Firing Rate", some "Trial 1", some "bokeh"⟩)
        "color" := by
  have hwf : Store.WF store1 := by
    unfold Store.WF
    decide
  refine ⟨hwf, ?_⟩
  exact (C1_most_specific_scope_wins store1 "Curve" "Firing Rate" "Trial 1" "bokeh"
      "color" hwf).2.2.1
    [⟨"Curve", none, none, none⟩, ⟨"Curve", some "Firing Rate", none, none⟩,
     ⟨"Curve", some "Firing Rate", some "Trial 1", none⟩,
     ⟨"Curve", none, none, some "bokeh"⟩,
     ⟨"Curve", some "Firing Rate", none, some "bokeh"⟩]
    ⟨"Curve", some "Firing Rate", some "Trial 1", some "bokeh"⟩ []
    rfl (by decide) (by intro sc2 h; cases h)

/-- Claim C2: an effective option whose name the active backend recognizes
but another backend does not is present in the resolution output under the
first backend and absent under the second, and neither resolution raises an
error. -/
theorem C2_cross_backend_drop
    (st : Store) (inst : Instance) (bA bB : String) (e : Entry)
    (hrec : AllRecognized st)
    (heA : e ∈ effective st inst bA)
    (heB : e ∈ effective st inst bB)
    (hA : (activeVocab st bA).contains e.name = true)
    (hB : (activeVocab st bB).contains e.name = false) :
    (∃ pA sA, resolve st inst bA = .ok (pA, sA) ∧ (e ∈ pA ∨ e ∈ sA)) ∧
    (∃ pB sB, resolve st inst bB = .ok (pB, sB) ∧
      hasName pB e.name = false ∧ hasName sB e.name = false) := by
  constructor
  · refine ⟨_, _, resolve_ok_of_recognized inst bA hrec, ?_⟩
    have hrecog : e ∈ effectiveRecognized st inst bA :=
      List.mem_filter.mpr ⟨heA, hA⟩
    cases htag : e.tag with
    | plot =>
      exact Or.inl (List.mem_filter.mpr ⟨hrecog, by rw [htag]; rfl⟩)
    | style =>
      exact Or.inr (List.mem_filter.mpr ⟨hrecog, by rw [htag]; rfl⟩)
  · refine ⟨_, _, resolve_ok_of_recognized inst bB hrec, ?_, ?_⟩
    · rcases hres : hasName
        ((effectiveRecognized st inst bB).filter (fun x => x.tag == Tag.plot))
        e.name with _ | _
      · rfl
      · rcases hasName_iff.mp hres with ⟨e2, he2, hn2⟩
        have hmem := List.mem_filter.mp (List.mem_of_mem_filter he2)
        rw [hn2] at hmem
        rw [hmem.2] at hB
        cases hB
    · rcases hres : hasName
        ((effectiveRecognized st inst bB).filter (fun x => x.tag == Tag.style))
        e.name with _ | _
      · rfl
      · rcases hasName_iff.mp hres with ⟨e2, he2, hn2⟩
        have hmem := List.mem_filter.mp (List.mem_of_mem_filter he2)
        rw [hn2] at hmem
        rw [hmem.2] at hB
        cases hB

/-- Claim C2 witness: in `store2` the `line_width` style entry is effective
for Curve under both backends; resolving under bokeh keeps it, resolving
under matplotlib silently drops it, and both resolutions succeed. -/
theorem C2_witness :
    AllRecognized store2 ∧
    ((∃ pA sA, resolve store2 ⟨"Curve", none, none⟩ "bokeh" = .ok (pA, sA) ∧
        (⟨"line_width", "1.5", Tag.style⟩ ∈ pA ∨ ⟨"line_width", "1.5", Tag.style⟩ ∈ sA)) ∧
     (∃ pB sB, resolve store2 ⟨"Curve", none, none⟩ "matplotlib" = .ok (pB, sB) ∧
        hasName pB "line_width" = false ∧ hasName sB "line_width" = false)) := by
  have hrec : AllRecognized store2 := by
    unfold AllRecognized
    decide
  refine ⟨hrec, ?_⟩
  exact C2_cross_backend_drop store2 ⟨"Curve", none, none⟩ "bokeh" "matplotlib"
    ⟨"line_width", "1.5", Tag.style⟩ hrec (by decide) (by decide) (by decide) (by decide)

/-- Claim C3: an option name recognized by no registered backend vocabulary
makes `register` fail with the UnrecognizedOption condition, and a store
built only from successful registrations over a clean starting store keeps
every registered name recognized by some backend, so its resolutions never
fail with the unknown-option condition. -/
theorem C3_unrecognized_option
    (st0 st : Store) (rs : List (Scope × OptionSpec)) (inst : Instance) (b : String)
    (h0 : AllRecognized st0)
    (hrun : registerAll st0 rs = .ok st) :
    (∀ st1 sc spec,
      spec.all (fun e => recognizedBySome st1.backends e.name) = false →
      register st1 sc spec = .error "UnrecognizedOption") ∧
    AllRecognized st ∧
    (∃ out, resolve st inst b = .ok out) := by
  refine ⟨?_, registerAll_AllRecognized h0 hrun, ?_⟩
  · intro st1 sc spec hbad
    unfold register
    rw [hbad]
    rfl
  · exact ⟨_, resolve_ok_of_recognized inst b (registerAll_AllRecognized h0 hrun)⟩

/-- Claim C3 witness: registering the recognized `color` option over the
clean `store3init` succeeds and yields `store3`, whose resolution for a
Curve instance under bokeh returns without error; the first conjunct also
shows any all-unrecognized spec is rejected at registration. -/
theorem C3_witness :
    AllRecognized store3init ∧
    registerAll store3init regs3 = .ok store3 ∧
    ((∀ st1 sc spec,
        spec.all (fun e => recognizedBySome st1.backends e.name) = false →
        register st1 sc spec = .error "UnrecognizedOption") ∧
      AllRecognized store3 ∧
      (∃ out, resolve store3 ⟨"Curve", none, none⟩ "bokeh" = .ok out)) := by
  have h0 : AllRecognized store3init := by
    unfold AllRecognized
    decide
  have hrun : registerAll store3init regs3 = .ok store3 := by rfl
  exact ⟨h0, hrun,
    C3_unrecognized_option store3init store3 regs3 ⟨"Curve", none, none⟩ "bokeh" h0 hrun⟩

/-- Claim C4: resolution is a pure function of the store contents, the
instance identity and the backend — a resolution step leaves the store
untouched, and after any further resolution-only operations the store and
therefore the result of re-resolving the same instance under the same
backend are unchanged. -/
theorem C4_resolution_pure
    (s : Session) (inst : Instance) (b : String) (mid : List Op)
    (hmid : mid.all Op.isRes = true) :
    (runOps s (Op.res inst b :: mid)).store = s.store ∧
    resolve (runOps s (Op.res inst b :: mid)).store inst b = resolve s.store inst b := by
  have hstore : (runOps s (Op.res inst b :: mid)).store = s.store := by
    rw [runOps, runOps_store_res hmid]
    rfl
  exact ⟨hstore, by rw [hstore]⟩

/-- Claim C4 witness: rendering the Spikes instance of `session4` twice with
no intervening registration leaves the store unchanged, so the second
resolution equals the first. -/
theorem C4_witness :
    (runOps session4 [Op.res ⟨"Spikes", none, none⟩ "bokeh",
        Op.res ⟨"Spikes", none, none⟩ "bokeh"]).store = session4.store ∧
    resolve (runOps session4 [Op.res ⟨"Spikes", none, none⟩ "bokeh",
        Op.res ⟨"Spikes", none, none⟩ "bokeh"]).store ⟨"Spikes", none, none⟩ "bokeh" =
      resolve session4.store ⟨"Spikes", none, none⟩ "bokeh" :=
  C4_resolution_pure session4 ⟨"Spikes", none, none⟩ "bokeh"
    [Op.res ⟨"Spikes", none, none⟩ "bokeh"] (by decide)

/-- Claim C5 counterexample: the Curve scope of `store5` already has
entries, yet registering a spec whose option name no backend recognizes
raises UnrecognizedOption — so "calling register on a scope that already has
entries never raises an error" is false as stated. -/
theorem C5_register_counterexample :
    specFor store5 ⟨"Curve", none, none, none⟩ ≠ [] ∧
    register store5 ⟨"Curve", none, none, none⟩ [⟨"glow", "1", Tag.style⟩] =
      .error "UnrecognizedOption" := by
  constructor
  · decide
  · rfl

/-- Claim C5 (amended): provided every option name of the new spec is
recognized by some registered backend, calling register on a scope that
already has entries never raises an error and overrides only the option
keys the store accepts from the new spec; every previously registered key
of that scope absent from the new spec keeps its old value, and every other
scope is untouched. -/
theorem C5_register_merge
    (st : Store) (sc : Scope) (spec : OptionSpec)
    (hrec : spec.all (fun e => recognizedBySome st.backends e.name) = true) :
    ∃ st2, register st sc spec = .ok st2 ∧
      (∀ n, hasName (sanitize sc spec) n = true →
        lookupName (specFor st2 sc) n = lookupName (sanitize sc spec) n) ∧
      (∀ n, hasName spec n = false →
        lookupName (specFor st2 sc) n = lookupName (specFor st sc) n) ∧
      (∀ sc2, sc2 ≠ sc → specFor st2 sc2 = specFor st sc2) := by
  have hok : register st sc spec =
      .ok ⟨st.backends, insertSpec st.entries sc (sanitize sc spec)⟩ := by
    unfold register
    rw [if_pos hrec]
  refine ⟨_, hok, ?_, ?_, ?_⟩
  · intro n hn
    rw [specFor_register hok sc, if_pos rfl, lookupName_mergeSpec, if_pos hn]
  · intro n hn
    rw [specFor_register hok sc, if_pos rfl, lookupName_mergeSpec,
      if_neg (Bool.eq_false_iff.mp (hasName_sanitize_false hn))]
  · intro sc2 hne
    rw [specFor_register hok sc2, if_neg hne]

/-- Claim C5 witness: registering a recognized `color` value over the
already-populated Curve scope of `store5` succeeds, replaces `color`, keeps
the untouched `width` key and leaves other scopes alone. -/
theorem C5_witness :
    ∃ st2, register store5 ⟨"Curve", none, none, none⟩
        [⟨"color", "green", Tag.style⟩] = .ok st2 ∧
      (∀ n, hasName (sanitize ⟨"Curve", none, none, none⟩
          [⟨"color", "green", Tag.style⟩]) n = true →
        lookupName (specFor st2 ⟨"Curve", none, none, none⟩) n =
          lookupName (sanitize ⟨"Curve", none, none, none⟩
            [⟨"color", "green", Tag.style⟩]) n) ∧
      (∀ n, hasName [⟨"color", "green", Tag.style⟩] n = false →
        lookupName (specFor st2 ⟨"Curve", none, none, none⟩) n =
          lookupName (specFor store5 ⟨"Curve", none, none, none⟩) n) ∧
      (∀ sc2, sc2 ≠ ⟨"Curve", none, none, none⟩ →
        specFor st2 sc2 = specFor store5 sc2) :=
  C5_register_merge store5 ⟨"Curve", none, none, none⟩
    [⟨"color", "green", Tag.style⟩] (by decide)

/-- Claim C6: a successful resolution splits the effective recognized
options into plot options and style options by their tag — every entry of
the first component is plot-tagged, every entry of the second is
style-tagged, every effective recognized entry lands in one of the two, and
no option name appears in both. -/
theorem C6_plot_style_partition
    (st : Store) (inst : Instance) (b : String) (p s : OptionSpec)
    (hwf : st.WF) (hres : resolve st inst b = .ok (p, s)) :
    (∀ e ∈ p, e.tag = Tag.plot) ∧ (∀ e ∈ s, e.tag = Tag.style) ∧
    (∀ e ∈ effectiveRecognized st inst b, e ∈ p ∨ e ∈ s) ∧
    (∀ n, ¬(hasName p n = true ∧ hasName s n = true)) := by
  unfold resolve at hres
  by_cases hguard :
      (effective st inst b).all (fun e => recognizedBySome st.backends e.name) = true
  · rw [if_pos hguard] at hres
    injection hres with hpair
    injection hpair with hp hs
    subst hp
    subst hs
    refine ⟨?_, ?_, ?_, ?_⟩
    · intro e he
      have hb : (e.tag == Tag.plot) = true := (List.mem_filter.mp he).2
      exact eq_of_beq hb
    · intro e he
      have hb : (e.tag == Tag.style) = true := (List.mem_filter.mp he).2
      exact eq_of_beq hb
    · intro e he
      cases htag : e.tag with
      | plot => exact Or.inl (List.mem_filter.mpr ⟨he, by rw [htag]; rfl⟩)
      | style => exact Or.inr (List.mem_filter.mpr ⟨he, by rw [htag]; rfl⟩)
    · rintro n ⟨hpn, hsn⟩
      rcases hasName_iff.mp hpn with ⟨e1, he1, hn1⟩
      rcases hasName_iff.mp hsn with ⟨e2, he2, hn2⟩
      have h1 := List.mem_of_mem_filter he1
      have h2 := List.mem_of_mem_filter he2
      have hb1 : (e1.tag == Tag.plot) = true := (List.mem_filter.mp he1).2
      have hb2 : (e2.tag == Tag.style) = true := (List.mem_filter.mp he2).2
      have ht1 : e1.tag = Tag.plot := eq_of_beq hb1
      have ht2 : e2.tag = Tag.style := eq_of_beq hb2
      have hnodup : (names (effectiveRecognized st inst b)).Nodup :=
        ((List.filter_sublist _).map Entry.name).nodup (effective_nodup inst b hwf)
      have he12 : e1 = e2 :=
        List.inj_on_of_nodup_map hnodup h1 h2 (by rw [hn1, hn2])
      rw [he12, ht2] at ht1
      cases ht1
  · rw [if_neg hguard] at hres
    cases hres

/-- Claim C6 witness: resolving the Curve instance of `store6` under bokeh
returns the width plot option and the color style option in separate
components, exhaustively and with disjoint names. -/
theorem C6_witness :
    Store.WF store6 ∧
    resolve store6 ⟨"Curve", none, none⟩ "bokeh" =
      .ok ([⟨"width", "600", Tag.plot⟩], [⟨"color", "red", Tag.style⟩]) ∧
    ((∀ e ∈ ([⟨"width", "600", Tag.plot⟩] : OptionSpec), e.tag = Tag.plot) ∧
     (∀ e ∈ ([⟨"color", "red", Tag.style⟩] : OptionSpec), e.tag = Tag.style) ∧
     (∀ e ∈ effectiveRecognized store6 ⟨"Curve", none, none⟩ "bokeh",
        e ∈ ([⟨"width", "600", Tag.plot⟩] : OptionSpec) ∨
        e ∈ ([⟨"color", "red", Tag.style⟩] : OptionSpec)) ∧
     (∀ n, ¬(hasName [⟨"width", "600", Tag.plot⟩] n = true ∧
             hasName [⟨"color", "red", Tag.style⟩] n = true))) := by
  have hwf : Store.WF store6 := by
    unfold Store.WF
    decide
  have hres : resolve store6 ⟨"Curve", none, none⟩ "bokeh" =
      .ok ([⟨"width", "600", Tag.plot⟩], [⟨"color", "red", Tag.style⟩]) := by rfl
  exact ⟨hwf, hres,
    C6_plot_style_partition store6 ⟨"Curve", none, none⟩ "bokeh" _ _ hwf hres⟩

/-- Claim C7: registered bundles persist for the object's lifetime — no
operation of the session removes a registered option name from its scope —
and operations only extend the rendered log, so registration never touches
already-rendered output. -/
theorem C7_persistence
    (s : Session) (ops : List Op) (sc : Scope) (n : String)
    (h : hasName (specFor s.store sc) n = true) :
    (∃ tail, (runOps s ops).rendered = s.rendered ++ tail) ∧
    hasName (specFor (runOps s ops).store sc) n = true :=
  ⟨runOps_rendered s ops, runOps_hasName ops h⟩

/-- Claim C7 witness: after a further registration and a render, the grey
color registered for Spikes in `session7` is still present, and the log was
only extended. -/
theorem C7_witness :
    hasName (specFor session7.store ⟨"Spikes", none, none, none⟩) "color" = true ∧
    ((∃ tail, (runOps session7 ops7).rendered = session7.rendered ++ tail) ∧
     hasName (specFor (runOps session7 ops7).store
       ⟨"Spikes", none, none, none⟩) "color" = true) :=
  ⟨by decide,
   C7_persistence session7 ops7 ⟨"Spikes", none, none, none⟩ "color" (by decide)⟩

/-- The sample transforms really transform the data while keeping the Option
Store identity of the element. -/
theorem select_spikes8_data :
    (select spikes8 2000 4000).data = [2500, 3500] ∧
    (select spikes8 2000 4000).data ≠ spikes8.data ∧
    instOf (select spikes8 2000 4000) = instOf spikes8 := by
  refine ⟨?_, ?_, rfl⟩ <;> decide

/-- Claim C8: styling attached to an element survives data-transforming
operations — the derived objects returned by select and by redim.label keep
the original Option Store identity, so resolving them under any backend
yields exactly the options of the original element, without
re-registration. -/
theorem C8_styling_survives_transforms
    (st : Store) (e : Element) (b : String) (lo hi : Int) (d lbl : String) :
    resolve st (instOf (select e lo hi)) b = resolve st (instOf e) b ∧
    resolve st (instOf (redimLabel e d lbl)) b = resolve st (instOf e) b ∧
    resolve st (instOf (select (redimLabel e d lbl) lo hi)) b =
      resolve st (instOf e) b :=
  ⟨rfl, rfl, rfl⟩

/-- Claim C9: loading several backends makes the first one listed the
default active backend; a backend override naming another loaded backend is
used for that single render and leaves the extension state — hence the
default for subsequent renders — unchanged. -/
theorem C9_extension_default_backend
    (u0 : UI) (b1 b2 : String) (rest : List String) (st : Store) (inst : Instance)
    (hb2 : (b1 :: rest).contains b2 = true) :
    (extension u0 (b1 :: rest)).active = some b1 ∧
    outputBackend (extension u0 (b1 :: rest)) none = some b1 ∧
    (renderWith (extension u0 (b1 :: rest)) st inst (some b2)).2 =
      some (resolve st inst b2) ∧
    (renderWith (extension u0 (b1 :: rest)) st inst (some b2)).1 =
      extension u0 (b1 :: rest) ∧
    outputBackend (renderWith (extension u0 (b1 :: rest)) st inst (some b2)).1 none =
      some b1 := by
  refine ⟨rfl, rfl, ?_, rfl, rfl⟩
  show ((outputBackend (extension u0 (b1 :: rest)) (some b2)).map
    (fun bk => resolve st inst bk)) = some (resolve st inst b2)
  unfold outputBackend extension
  have hmem : b2 = b1 ∨ b2 ∈ rest := by simpa using hb2
  simp [hmem]

/-- Claim C9 witness: loading bokeh then matplotlib makes bokeh the
default; an override render with matplotlib resolves under matplotlib and
the default afterwards is still bokeh. -/
theorem C9_witness :
    (["bokeh", "matplotlib"] : List String).contains "matplotlib" = true ∧
    ((extension ⟨[], none⟩ ["bokeh", "matplotlib"]).active = some "bokeh" ∧
     outputBackend (extension ⟨[], none⟩ ["bokeh", "matplotlib"]) none = some "bokeh" ∧
     (renderWith (extension ⟨[], none⟩ ["bokeh", "matplotlib"]) ⟨[], []⟩
        ⟨"Curve", none, none⟩ (some "matplotlib")).2 =
       some (resolve ⟨[], []⟩ ⟨"Curve", none, none⟩ "matplotlib") ∧
     (renderWith (extension ⟨[], none⟩ ["bokeh", "matplotlib"]) ⟨[], []⟩
        ⟨"Curve", none, none⟩ (some "matplotlib")).1 =
       extension ⟨[], none⟩ ["bokeh", "matplotlib"] ∧
     outputBackend (renderWith (extension ⟨[], none⟩ ["bokeh", "matplotlib"]) ⟨[], []⟩
        ⟨"Curve", none, none⟩ (some "matplotlib")).1 none = some "bokeh") :=
  ⟨by decide,
   C9_extension_default_backend ⟨[], none⟩ "bokeh" "matplotlib" ["matplotlib"]
     ⟨[], []⟩ ⟨"Curve", none, none⟩ (by decide)⟩

/-- Claim C10: container types accept only plot options — registration for
a container scope keeps only plot-tagged entries — so resolving a container
instance never yields a non-empty style-option set. -/
theorem C10_container_no_style
    (st : Store) (inst : Instance) (b : String) (p s : OptionSpec)
    (hinv : ContainerInv st)
    (hc : isContainer inst.etype = true)
    (hres : resolve st inst b = .ok (p, s)) :
    s = [] ∧
    (∀ sc spec st2, isContainer sc.etype = true → register st sc spec = .ok st2 →
      ∀ e ∈ specFor st2 sc, e.tag = Tag.plot) := by
  constructor
  · unfold resolve at hres
    by_cases hguard :
        (effective st inst b).all (fun e => recognizedBySome st.backends e.name) = true
    · rw [if_pos hguard] at hres
      injection hres with hpair
      injection hpair with hp hs
      subst hs
      rw [List.eq_nil_iff_forall_not_mem]
      intro e he
      have hmem := List.mem_filter.mp he
      have htag : (e.tag == Tag.style) = true := hmem.2
      have he2 := List.mem_filter.mp hmem.1
      rcases mem_effective he2.1 with ⟨sc, hsc, hspec⟩
      rcases specFor_sub hspec with ⟨q, hq, hq1, hq2⟩
      have hce : isContainer sc.etype = true := by
        rw [matchingScopes_etype inst b sc hsc]
        exact hc
      have hplot : e.tag = Tag.plot := hinv q hq (by rw [hq1]; exact hce) e hq2
      rw [hplot] at htag
      exact absurd htag (by decide)
    · rw [if_neg hguard] at hres
      cases hres
  · intro sc spec st2 hcsc hr e he
    rw [specFor_register hr sc, if_pos rfl] at he
    rcases mem_mergeSpec he with h1 | h2
    · rcases specFor_sub h1 with ⟨q, hq, hq1, hq2⟩
      exact hinv q hq (by rw [hq1]; exact hcsc) e hq2
    · exact sanitize_container_plot hcsc h2

/-- Claim C10 witness: resolving the Layout instance of `store10` under
bokeh returns its vspace plot option and an empty style set. -/
theorem C10_witness :
    ContainerInv store10 ∧
    resolve store10 ⟨"Layout", none, none⟩ "bokeh" =
      .ok ([⟨"vspace", "0.1", Tag.plot⟩], []) ∧
    (([] : OptionSpec) = [] ∧
     (∀ sc spec st2, isContainer sc.etype = true →
        register store10 sc spec = .ok st2 →
        ∀ e ∈ specFor st2 sc, e.tag = Tag.plot)) := by
  have hinv : ContainerInv store10 := by
    unfold ContainerInv
    decide
  have hres : resolve store10 ⟨"Layout", none, none⟩ "bokeh" =
      .ok ([⟨"vspace", "0.1", Tag.plot⟩], []) := by rfl
  exact ⟨hinv, hres,
    C10_container_no_style store10 ⟨"Layout", none, none⟩ "bokeh" _ _ hinv
      (by decide) hres⟩

end Holo
